import Mathlib

/-!
Shallow embedding of `libOpenings.py` (epfl-mobots/HiveOpenings).

Modelling conventions:
* A pandas `Timestamp` is modelled as `PTimestamp`: an absolute position in
  minutes (`Int`) together with an `aware : Bool` flag standing for
  `tzinfo is not None`.  All pandas comparisons between (aware) timestamps
  compare the underlying instants, modelled by comparing `minutes`.
* The fixed zone `CET` is modelled as a fixed-offset zone: `tz_localize('CET')`
  maps a wall-clock datetime to the minute count of that wall-clock time on a
  proleptic Gregorian calendar (the constant zone offset is dropped, which is
  harmless because every claim only compares or shifts timestamps, operations
  invariant under a constant offset).  DST gaps/overlaps of the real `CET`
  zone are not modelled, so `tz_localize` never fails here.
* Fallible Python code (assertions, `ValueError`, `KeyError`, parse errors)
  is modelled with `Except String`.
* A time field without the character `-` makes `time.str.split('-').str[1]`
  a missing value: the end column receives `NaT` and the record still loads,
  and every pandas comparison involving `NaT` is false.  `build_openings_full`
  models the loader with this path included (`end_opening : Option PTimestamp`,
  `none` standing for `NaT`); `build_openings_df` is its restriction that
  rejects such a line, agreeing with `build_openings_full` on every input it
  accepts (`build_agrees_full`), and is used by the claims whose inputs never
  reach the `NaT` path.
-/

/-- Model of `pd.Timestamp`: absolute minutes plus timezone-awareness flag. -/
structure PTimestamp where
  minutes : Int
  aware : Bool
deriving DecidableEq

/-- Comparison `a < b` on timestamps (pandas compares instants). -/
def tsLt (a b : PTimestamp) : Bool := decide (a.minutes < b.minutes)

/-- Comparison `a <= b` on timestamps. -/
def tsLe (a b : PTimestamp) : Bool := decide (a.minutes ≤ b.minutes)

/-- Comparison `a > b` on timestamps. -/
def tsGt (a b : PTimestamp) : Bool := decide (a.minutes > b.minutes)

/-- Comparison `a >= b` on timestamps. -/
def tsGe (a b : PTimestamp) : Bool := decide (a.minutes ≥ b.minutes)

/-- Model of `t + pd.Timedelta(minutes=m)`. -/
def tsAdd (a : PTimestamp) (m : Int) : PTimestamp := ⟨a.minutes + m, a.aware⟩

/-- Python `max(a, b)`: returns `b` iff `b > a` (first argument on ties). -/
def tsMaxPy (a b : PTimestamp) : PTimestamp := if tsLt a b then b else a

/-- Python `min(a, b)`: returns `b` iff `b < a` (first argument on ties). -/
def tsMinPy (a b : PTimestamp) : PTimestamp := if tsLt b a then b else a

/-- One row of the final `openings_df` after hive explosion
(`['start_opening', 'end_opening', 'hive_nb', 'comment']`). -/
structure OpeningRecord where
  start_opening : PTimestamp
  end_opening : PTimestamp
  hive_nb : Int
  comment : Option String
deriving DecidableEq

/-- One `dict_invalid` of `get_invalid_times`; `istart`/`iend` model the dict
keys `'start'`/`'end'` (`end` is a Lean keyword). -/
structure PInterval where
  istart : PTimestamp
  iend : PTimestamp
deriving DecidableEq

/-- One entry of `openings_data`: the stripped fields of a kept log line. -/
structure Row where
  date : List Char
  time : List Char
  hives : List Char
  comment : Option (List Char)
deriving DecidableEq

/-- Characters stripped by Python's `str.strip()` (the ASCII whitespace
relevant to text log lines). -/
def isPySpace (c : Char) : Bool :=
  c = ' ' || c = '\t' || c = '\n' || c = '\r' || c = '\x0b' || c = '\x0c'

/-- Python `s.strip()`. -/
def pyStrip (s : List Char) : List Char :=
  ((s.dropWhile isPySpace).reverse.dropWhile isPySpace).reverse

/-- Python `s.startswith(c)` for a single character. -/
def pyStartsWith (c : Char) : List Char → Bool
  | [] => false
  | x :: _ => x = c

/-- Split off the segment before the first occurrence of `sep`, if any. -/
def splitOnce (sep : Char) : List Char → Option (List Char × List Char)
  | [] => none
  | c :: cs =>
    if c = sep then some ([], cs)
    else match splitOnce sep cs with
      | none => none
      | some (a, r) => some (c :: a, r)

/-- Python `s.split(sep, maxsplit)` with an explicit separator: keeps empty
segments, performs at most `maxsplit` splits. -/
def pySplitMax (sep : Char) (s : List Char) : Nat → List (List Char)
  | 0 => [s]
  | k + 1 =>
    match splitOnce sep s with
    | none => [s]
    | some (a, r) => a :: pySplitMax sep r k

/-- Python `s.split(sep)` (unlimited splits; `s.length` splits always suffice). -/
def pySplitAll (sep : Char) (s : List Char) : List (List Char) :=
  pySplitMax sep s s.length

/-- Take up to `w` leading decimal digits. -/
def digitsTake : Nat → List Char → (List Char × List Char)
  | 0, s => ([], s)
  | _ + 1, [] => ([], [])
  | k + 1, c :: cs =>
    if c.isDigit then
      let p := digitsTake k cs
      (c :: p.1, p.2)
    else ([], c :: cs)

/-- Numeric value of a digit string. -/
def natOfDigits (ds : List Char) : Nat :=
  ds.foldl (fun n c => n * 10 + (c.toNat - 48)) 0

/-- Parse a 1-to-`w`-digit number greedily (strptime numeric field). -/
def takeNum (w : Nat) (s : List Char) : Option (Nat × List Char) :=
  let p := digitsTake w s
  if p.1.isEmpty then none else some (natOfDigits p.1, p.2)

/-- Parse exactly two digits (strptime `%y` requires two). -/
def takeTwoDigits (s : List Char) : Option (Nat × List Char) :=
  match s with
  | c1 :: c2 :: rest =>
    if c1.isDigit && c2.isDigit then some (natOfDigits [c1, c2], rest) else none
  | _ => none

/-- Consume one expected literal character. -/
def expectChar (c : Char) : List Char → Option (List Char)
  | [] => none
  | x :: xs => if x = c then some xs else none

/-- Gregorian leap year. -/
def isLeap (y : Nat) : Bool := y % 4 = 0 && (y % 100 ≠ 0 || y % 400 = 0)

/-- Length of a month (month given 1-12). -/
def daysInMonth (y m : Nat) : Nat :=
  if m = 2 then (if isLeap y then 29 else 28)
  else if m = 4 || m = 6 || m = 9 || m = 11 then 30
  else 31

/-- Days in the months of year `y` strictly before month `m`. -/
def daysBeforeMonth (y m : Nat) : Nat :=
  let f := if isLeap y then 29 else 28
  match m with
  | 2 => 31
  | 3 => 31 + f
  | 4 => 62 + f
  | 5 => 92 + f
  | 6 => 123 + f
  | 7 => 153 + f
  | 8 => 184 + f
  | 9 => 215 + f
  | 10 => 245 + f
  | 11 => 276 + f
  | 12 => 306 + f
  | _ => 0

/-- Leap years among years `1 .. y-1` (proleptic Gregorian). -/
def leapsBefore (y : Nat) : Nat := (y - 1) / 4 - (y - 1) / 100 + (y - 1) / 400

/-- Absolute day index of a calendar date (proleptic Gregorian). -/
def dayNumber (y m d : Nat) : Nat :=
  365 * y + leapsBefore y + daysBeforeMonth y m + (d - 1)

/-- A wall-clock datetime localized to the fixed zone (`tz_localize('CET')`
with `CET` modelled as a fixed-offset zone, see the file header). -/
def cetTime (y mo d h mi : Nat) : PTimestamp :=
  ⟨((dayNumber y mo d) * 1440 + h * 60 + mi : Nat), true⟩

/-- Two-digit year of strptime `%y`: 0-68 map to 2000-2068, 69-99 to 1969-1999. -/
def yearOf (y2 : Nat) : Nat := if y2 ≤ 68 then 2000 + y2 else 1900 + y2

/-- Parse of the date field against `%d/%m/%y` (pandas strptime: 1-2 digit day
in 1-31 and month in 1-12, exactly 2-digit year, full match, calendar-valid
day).  Returns `(day, month, full year)`. -/
def parseDate (s : List Char) : Option (Nat × Nat × Nat) :=
  match takeNum 2 s with
  | none => none
  | some (d, s1) =>
    match expectChar '/' s1 with
    | none => none
    | some s2 =>
      match takeNum 2 s2 with
      | none => none
      | some (m, s3) =>
        match expectChar '/' s3 with
        | none => none
        | some s4 =>
          match takeTwoDigits s4 with
          | none => none
          | some (y2, s5) =>
            if s5 = [] ∧ 1 ≤ d ∧ 1 ≤ m ∧ m ≤ 12 ∧ d ≤ daysInMonth (yearOf y2) m then
              some (d, m, yearOf y2)
            else none

/-- Parse of one half of the time field against `%H:%M` (1-2 digit hour 0-23
and minute 0-59, full match). -/
def parseTime (s : List Char) : Option (Nat × Nat) :=
  match takeNum 2 s with
  | none => none
  | some (h, s1) =>
    match expectChar ':' s1 with
    | none => none
    | some s2 =>
      match takeNum 2 s2 with
      | none => none
      | some (m, s3) =>
        if s3 = [] ∧ h ≤ 23 ∧ m ≤ 59 then some (h, m) else none

/-- Model of `Series.str.extract(r'h(\d+)')` on one value: first occurrence of
`h` followed by at least one digit, capturing the maximal digit run. -/
def extractHiveDigits : List Char → Option (List Char)
  | [] => none
  | c :: cs =>
    if c = 'h' then
      let ds := cs.takeWhile Char.isDigit
      if ds.isEmpty then extractHiveDigits cs else some ds
    else extractHiveDigits cs

/-- Lines 23-31 of the source for one line of the file: skip a line that is
blank after stripping or starts with `#` (tested on the unstripped line),
split the stripped line on single spaces with `maxsplit=3`, keep only 3- or
4-field lines, strip each field. -/
def parseFields (line : String) : Option Row :=
  let stripped := pyStrip line.data
  if stripped = [] then none
  else if pyStartsWith '#' line.data then none
  else match pySplitMax ' ' stripped 3 with
    | [d, t, h] => some ⟨pyStrip d, pyStrip t, pyStrip h, none⟩
    | [d, t, h, c] => some ⟨pyStrip d, pyStrip t, pyStrip h, some (pyStrip c)⟩
    | _ => none

/-- Lines 35-49 of the source for one row of `openings_data`: parse the date
(`%d/%m/%y`), split the time field on `-` and parse halves 0 and 1
(`%H:%M`), localize both to the fixed zone, extract the hive digits and
produce one record per digit.  A time field with no `-` gives the end column
`NaT` in pandas; this restricted model rejects that line, and `buildRowFull`
below models it faithfully (see the file header).  A hives field with no
`h<digit>` match gives `NaN`, which `astype(int)` then rejects. -/
def buildRow (row : Row) : Except String (List OpeningRecord) :=
  match parseDate row.date with
  | none => .error "time data does not match format"
  | some (d, m, y) =>
    match pySplitAll '-' row.time with
    | t0 :: t1 :: _ =>
      match parseTime t0, parseTime t1 with
      | some (h0, mi0), some (h1, mi1) =>
        match extractHiveDigits row.hives with
        | some ds =>
          .ok (ds.map fun c =>
            { start_opening := cetTime y m d h0 mi0
              end_opening := cetTime y m d h1 mi1
              hive_nb := ((c.toNat - 48 : Nat) : Int)
              comment := row.comment.map (fun l => String.mk l) })
        | none => .error "cannot convert NaN to integer"
      | _, _ => .error "time data does not match format"
    | _ => .error "missing end time"

/-- Monadic map over `Except`, first error wins. -/
def mapME (f : α → Except String β) : List α → Except String (List β)
  | [] => .ok []
  | x :: xs =>
    match f x with
    | .error e => .error e
    | .ok y =>
      match mapME f xs with
      | .error e => .error e
      | .ok ys => .ok (y :: ys)

/-- Model of `build_openings_df` over the list of lines read from the file.
An input producing no `openings_data` entries at all makes
`pd.DataFrame([])['date']` raise a `KeyError`, modelled as an error. -/
def build_openings_df (lines : List String) : Except String (List OpeningRecord) :=
  let openings_data := lines.filterMap parseFields
  if openings_data.isEmpty then .error "KeyError: date"
  else
    match mapME buildRow openings_data with
    | .error e => .error e
    | .ok recss => .ok recss.flatten

/-- One row of the real `openings_df` including the `NaT` possibility in the
end column: a time field without `-` leaves `time.str.split('-').str[1]`
missing, `pd.to_datetime` passes the missing value through as `NaT`, and
`tz_localize` keeps it, so the record loads with `end_opening = NaT`
(modelled as `none`). -/
structure NOpening where
  start_opening : PTimestamp
  end_opening : Option PTimestamp
  hive_nb : Int
  comment : Option String
deriving DecidableEq

/-- Pandas `end_opening >= start_opening` on the possibly-`NaT` end column:
every comparison involving `NaT` is false. -/
def natGe (e : Option PTimestamp) (s : PTimestamp) : Bool :=
  match e with
  | some e2 => tsGe e2 s
  | none => false

/-- Embedding of a `NaT`-free record into the full record type. -/
def openingToN (r : OpeningRecord) : NOpening :=
  ⟨r.start_opening, some r.end_opening, r.hive_nb, r.comment⟩

/-- Lines 35-49 of the source for one row of `openings_data`, full fidelity:
like `buildRow`, but a time field whose split on `-` has no second part
loads successfully with `end_opening = NaT` (`none`) instead of failing. -/
def buildRowFull (row : Row) : Except String (List NOpening) :=
  match parseDate row.date with
  | none => .error "time data does not match format"
  | some (d, m, y) =>
    match pySplitAll '-' row.time with
    | [] => .error "time data does not match format"
    | t0 :: rest =>
      match parseTime t0 with
      | none => .error "time data does not match format"
      | some (h0, mi0) =>
        match rest with
        | [] =>
          match extractHiveDigits row.hives with
          | some ds =>
            .ok (ds.map fun c =>
              { start_opening := cetTime y m d h0 mi0
                end_opening := none
                hive_nb := ((c.toNat - 48 : Nat) : Int)
                comment := row.comment.map (fun l => String.mk l) })
          | none => .error "cannot convert NaN to integer"
        | t1 :: _ =>
          match parseTime t1 with
          | none => .error "time data does not match format"
          | some (h1, mi1) =>
            match extractHiveDigits row.hives with
            | some ds =>
              .ok (ds.map fun c =>
                { start_opening := cetTime y m d h0 mi0
                  end_opening := some (cetTime y m d h1 mi1)
                  hive_nb := ((c.toNat - 48 : Nat) : Int)
                  comment := row.comment.map (fun l => String.mk l) })
            | none => .error "cannot convert NaN to integer"

/-- Full-fidelity model of `build_openings_df` (lines 22-57): identical to
`build_openings_df` above except that the `NaT` end-column path loads. -/
def build_openings_full (lines : List String) : Except String (List NOpening) :=
  let openings_data := lines.filterMap parseFields
  if openings_data.isEmpty then .error "KeyError: date"
  else
    match mapME buildRowFull openings_data with
    | .error e => .error e
    | .ok recss => .ok recss.flatten

/-- Boolean filter of lines 78-80 of the source, with the comparisons oriented
exactly as written there. -/
def overlapCond (r : OpeningRecord) (start_ts end_ts : PTimestamp) (recovery_time : Int) : Bool :=
  (tsLt r.start_opening end_ts && tsGe r.start_opening start_ts) ||
  (tsGt (tsAdd r.end_opening recovery_time) start_ts &&
    tsLe (tsAdd r.end_opening recovery_time) end_ts) ||
  (tsLe r.start_opening start_ts && tsGe (tsAdd r.end_opening recovery_time) end_ts)

/-- Lines 85-91 of the source: the emitted `dict_invalid` for one row. -/
def clipRow (r : OpeningRecord) (start_ts end_ts : PTimestamp) (recovery_time : Int) : PInterval :=
  { istart := tsMaxPy r.start_opening start_ts
    iend := tsMinPy (tsAdd r.end_opening recovery_time) end_ts }

/-- Model of `get_invalid_times`, parameterised by the module-level
`openings_df` table.  The two `assert` statements are modelled as errors. -/
def get_invalid_times (table : List OpeningRecord) (start_ts end_ts : PTimestamp)
    (hive_nb : Int) (recovery_time : Int) : Except String (List PInterval) :=
  if start_ts.aware = false then .error "start_ts must be timezone-aware"
  else if end_ts.aware = false then .error "end_ts must be timezone-aware"
  else
    let filtered_openings := (table.filter (fun r => r.hive_nb == hive_nb)).filter
      (fun r => overlapCond r start_ts end_ts recovery_time)
    .ok (filtered_openings.map (fun r => clipRow r start_ts end_ts recovery_time))

/-- Stable insertion into a list sorted by instant. -/
def tsInsert (t : PTimestamp) : List PTimestamp → List PTimestamp
  | [] => [t]
  | x :: xs => if tsLe x t then x :: tsInsert t xs else t :: x :: xs

/-- Python `sorted` on timestamps (stable, ascending by instant). -/
def tsSort : List PTimestamp → List PTimestamp
  | [] => []
  | x :: xs => tsInsert x (tsSort xs)

/-- Python `min` over a timestamp list: first minimal element, `none` on `[]`. -/
def pyMin : List PTimestamp → Option PTimestamp
  | [] => none
  | x :: xs => some (xs.foldl (fun a b => if tsLt b a then b else a) x)

/-- Python `max` over a timestamp list: first maximal element, `none` on `[]`. -/
def pyMax : List PTimestamp → Option PTimestamp
  | [] => none
  | x :: xs => some (xs.foldl (fun a b => if tsLt a b then b else a) x)

/-- Model of `filter_timestamps`: assert awareness of every timestamp, sort,
take `min`/`max` of the sorted list (`min([])` raises a `ValueError`), get the
invalid intervals for that span, and keep the timestamps lying in none of
them (closed membership `start <= ts <= end`). -/
def filter_timestamps (table : List OpeningRecord) (timestamps : List PTimestamp)
    (hive_nb : Int) (recovery_time : Int) : Except String (List PTimestamp) :=
  if timestamps.any (fun t => !t.aware) then
    .error "All timestamps must be timezone-aware"
  else
    match pyMin (tsSort timestamps), pyMax (tsSort timestamps) with
    | some start_ts, some end_ts =>
      match get_invalid_times table start_ts end_ts hive_nb recovery_time with
      | .error e => .error e
      | .ok invalid_times =>
        .ok ((tsSort timestamps).filter
          (fun t => !(invalid_times.any (fun iv => tsLe iv.istart t && tsLe t iv.iend))))
    | _, _ => .error "min() arg is an empty sequence"

/-- Model of `valid_ts`. -/
def valid_ts (table : List OpeningRecord) (timestamp : PTimestamp)
    (hive_nb : Int) (recovery_time : Int) : Except String Bool :=
  match filter_timestamps table [timestamp] hive_nb recovery_time with
  | .error e => .error e
  | .ok l => .ok (decide (l.length > 0))

/-- Overlap condition following the wording of claim C1 and spec 4.2 verbatim:
`start_ts <= start_opening < end_ts`, or `start_ts < end_opening+recovery <
end_ts` (strict on both sides), or `start_opening <= start_ts` and
`end_opening+recovery >= end_ts`.  Written from the spec, to be compared with
`overlapCond`, which is written from the source. -/
def specOverlap (r : OpeningRecord) (start_ts end_ts : PTimestamp) (recovery : Int) : Prop :=
  (tsLe start_ts r.start_opening = true ∧ tsLt r.start_opening end_ts = true) ∨
  (tsLt start_ts (tsAdd r.end_opening recovery) = true ∧
    tsLt (tsAdd r.end_opening recovery) end_ts = true) ∨
  (tsLe r.start_opening start_ts = true ∧ tsLe end_ts (tsAdd r.end_opening recovery) = true)

/-- Overlap condition of claim C1 as amended: condition 2 becomes
`start_ts < end_opening+recovery <= end_ts` (strict left, inclusive right);
conditions 1 and 3 are unchanged.  Written in the spec's orientation, to be
compared with `overlapCond`. -/
def amendedOverlap (r : OpeningRecord) (start_ts end_ts : PTimestamp) (recovery : Int) : Bool :=
  (tsLe start_ts r.start_opening && tsLt r.start_opening end_ts) ||
  (tsLt start_ts (tsAdd r.end_opening recovery) &&
    tsLe (tsAdd r.end_opening recovery) end_ts) ||
  (tsLe r.start_opening start_ts && tsLe end_ts (tsAdd r.end_opening recovery))

/-- Clipping following the wording of claim C4: `start = max(start_opening,
start_ts)`, `end = min(end_opening+recovery, end_ts)`, with mathematical
`max`/`min` on the instants (the result of a query on timezone-aware inputs
is timezone-aware).  Written from the spec, to be compared with `clipRow`. -/
def specClip (r : OpeningRecord) (start_ts end_ts : PTimestamp) (recovery : Int) : PInterval :=
  { istart := ⟨max r.start_opening.minutes start_ts.minutes, true⟩
    iend := ⟨min (r.end_opening.minutes + recovery) end_ts.minutes, true⟩ }

/-- Condition of claim C7 on a log line, in the claim's wording: empty after
stripping, or starting with `#`, or splitting into neither 3 nor 4 fields. -/
def skippedLine (line : String) : Prop :=
  pyStrip line.data = [] ∨ pyStartsWith '#' line.data = true ∨
    ((pySplitMax ' ' (pyStrip line.data) 3).length ≠ 3 ∧
     (pySplitMax ' ' (pyStrip line.data) 3).length ≠ 4)

/-! ### Basic lemmas about the timestamp order and the sort -/

theorem tsLe_iff (a b : PTimestamp) : tsLe a b = true ↔ a.minutes ≤ b.minutes := by
  simp [tsLe]

theorem tsLt_iff (a b : PTimestamp) : tsLt a b = true ↔ a.minutes < b.minutes := by
  simp [tsLt]

theorem PTimestamp.ext_minutes {a b : PTimestamp} (hm : a.minutes = b.minutes)
    (ha : a.aware = b.aware) : a = b := by
  cases a; cases b; simp_all

theorem tsInsert_mem (t : PTimestamp) (l : List PTimestamp) (y : PTimestamp) :
    y ∈ tsInsert t l ↔ y = t ∨ y ∈ l := by
  induction l with
  | nil => simp [tsInsert]
  | cons x xs ih =>
    by_cases h : tsLe x t = true
    · simp [tsInsert, h, ih, or_left_comm]
    · simp [tsInsert, h]

theorem tsInsert_perm (t : PTimestamp) (l : List PTimestamp) :
    (tsInsert t l).Perm (t :: l) := by
  induction l with
  | nil => simp [tsInsert]
  | cons x xs ih =>
    by_cases h : tsLe x t = true
    · simp only [tsInsert, h, if_pos]
      exact (ih.cons x).trans (List.Perm.swap t x xs)
    · simp [tsInsert, h]

theorem tsSort_perm (l : List PTimestamp) : (tsSort l).Perm l := by
  induction l with
  | nil => simp [tsSort]
  | cons x xs ih =>
    exact (tsInsert_perm x (tsSort xs)).trans (ih.cons x)

theorem tsSort_mem (l : List PTimestamp) (y : PTimestamp) :
    y ∈ tsSort l ↔ y ∈ l := (tsSort_perm l).mem_iff

theorem tsInsert_pairwise (t : PTimestamp) (l : List PTimestamp)
    (h : List.Pairwise (fun a b => a.minutes ≤ b.minutes) l) :
    List.Pairwise (fun a b => a.minutes ≤ b.minutes) (tsInsert t l) := by
  induction l with
  | nil => simp [tsInsert]
  | cons x xs ih =>
    obtain ⟨hx, hxs⟩ := List.pairwise_cons.1 h
    by_cases hle : tsLe x t = true
    · simp only [tsInsert, hle, if_pos]
      refine List.Pairwise.cons ?_ (ih hxs)
      intro y hy
      rcases (tsInsert_mem t xs y).1 hy with rfl | hy
      · exact (tsLe_iff x y).1 hle
      · exact hx y hy
    · simp only [tsInsert, hle, if_neg, Bool.not_eq_true]
      have hxt : t.minutes ≤ x.minutes := by
        have h2 := (not_iff_not.2 (tsLe_iff x t)).1 (by simp [hle])
        omega
      refine List.Pairwise.cons ?_ (List.Pairwise.cons hx hxs)
      intro y hy
      rcases List.mem_cons.1 hy with rfl | hy
      · exact hxt
      · exact le_trans hxt (hx y hy)

theorem tsSort_sorted (l : List PTimestamp) :
    List.Pairwise (fun a b => a.minutes ≤ b.minutes) (tsSort l) := by
  induction l with
  | nil => simp [tsSort]
  | cons x xs ih => exact tsInsert_pairwise x (tsSort xs) ih

theorem tsSort_ne_nil {l : List PTimestamp} (h : l ≠ []) : tsSort l ≠ [] := by
  intro hc
  have hp := tsSort_perm l
  rw [hc] at hp
  exact h hp.symm.eq_nil

/-! ### Lemmas about Python min/max over a list -/

theorem pyMinFold_spec (xs : List PTimestamp) (x : PTimestamp) :
    (xs.foldl (fun a b => if tsLt b a then b else a) x) ∈ x :: xs ∧
    (xs.foldl (fun a b => if tsLt b a then b else a) x).minutes ≤ x.minutes ∧
    ∀ y ∈ xs, (xs.foldl (fun a b => if tsLt b a then b else a) x).minutes ≤ y.minutes := by
  induction xs generalizing x with
  | nil => simp
  | cons b xs ih =>
    have hcases : (if tsLt b x = true then b else x) = b ∨ (if tsLt b x = true then b else x) = x := by
      by_cases hb : tsLt b x = true <;> simp [hb]
    have hle_x : (if tsLt b x = true then b else x).minutes ≤ x.minutes := by
      by_cases hb : tsLt b x = true
      · have := (tsLt_iff b x).1 hb
        simp only [hb, if_pos]
        omega
      · simp [hb]
    have hle_b : (if tsLt b x = true then b else x).minutes ≤ b.minutes := by
      by_cases hb : tsLt b x = true
      · simp [hb]
      · have h2 : ¬ b.minutes < x.minutes := fun hc => hb ((tsLt_iff b x).2 hc)
        simp only [hb, if_neg, Bool.not_eq_true]
        omega
    obtain ⟨hmem, hx, hall⟩ := ih (if tsLt b x = true then b else x)
    simp only [List.foldl_cons]
    refine ⟨?_, ?_, ?_⟩
    · rcases List.mem_cons.1 hmem with heq | hmem2
      · rw [heq]
        rcases hcases with h1 | h1 <;> rw [h1] <;> simp
      · simp [hmem2]
    · exact le_trans hx hle_x
    · intro y hy
      rcases List.mem_cons.1 hy with rfl | hy2
      · exact le_trans hx hle_b
      · exact hall y hy2

theorem pyMin_spec {l : List PTimestamp} {m : PTimestamp} (h : pyMin l = some m) :
    m ∈ l ∧ ∀ y ∈ l, m.minutes ≤ y.minutes := by
  cases l with
  | nil => simp [pyMin] at h
  | cons x xs =>
    simp only [pyMin, Option.some.injEq] at h
    obtain ⟨hmem, hx, hall⟩ := pyMinFold_spec xs x
    subst h
    refine ⟨hmem, ?_⟩
    intro y hy
    rcases List.mem_cons.1 hy with rfl | hy2
    · exact hx
    · exact hall y hy2

theorem pyMaxFold_spec (xs : List PTimestamp) (x : PTimestamp) :
    (xs.foldl (fun a b => if tsLt a b then b else a) x) ∈ x :: xs ∧
    x.minutes ≤ (xs.foldl (fun a b => if tsLt a b then b else a) x).minutes ∧
    ∀ y ∈ xs, y.minutes ≤ (xs.foldl (fun a b => if tsLt a b then b else a) x).minutes := by
  induction xs generalizing x with
  | nil => simp
  | cons b xs ih =>
    have hcases : (if tsLt x b = true then b else x) = b ∨ (if tsLt x b = true then b else x) = x := by
      by_cases hb : tsLt x b = true <;> simp [hb]
    have hge_x : x.minutes ≤ (if tsLt x b = true then b else x).minutes := by
      by_cases hb : tsLt x b = true
      · have := (tsLt_iff x b).1 hb
        simp only [hb, if_pos]
        omega
      · simp [hb]
    have hge_b : b.minutes ≤ (if tsLt x b = true then b else x).minutes := by
      by_cases hb : tsLt x b = true
      · simp [hb]
      · have h2 : ¬ x.minutes < b.minutes := fun hc => hb ((tsLt_iff x b).2 hc)
        simp only [hb, if_neg, Bool.not_eq_true]
        omega
    obtain ⟨hmem, hx, hall⟩ := ih (if tsLt x b = true then b else x)
    simp only [List.foldl_cons]
    refine ⟨?_, ?_, ?_⟩
    · rcases List.mem_cons.1 hmem with heq | hmem2
      · rw [heq]
        rcases hcases with h1 | h1 <;> rw [h1] <;> simp
      · simp [hmem2]
    · exact le_trans hge_x hx
    · intro y hy
      rcases List.mem_cons.1 hy with rfl | hy2
      · exact le_trans hge_b hx
      · exact hall y hy2

theorem pyMax_spec {l : List PTimestamp} {m : PTimestamp} (h : pyMax l = some m) :
    m ∈ l ∧ ∀ y ∈ l, y.minutes ≤ m.minutes := by
  cases l with
  | nil => simp [pyMax] at h
  | cons x xs =>
    simp only [pyMax, Option.some.injEq] at h
    obtain ⟨hmem, hx, hall⟩ := pyMaxFold_spec xs x
    subst h
    refine ⟨hmem, ?_⟩
    intro y hy
    rcases List.mem_cons.1 hy with rfl | hy2
    · exact hx
    · exact hall y hy2

theorem pyMin_isSome {l : List PTimestamp} (h : l ≠ []) : ∃ m, pyMin l = some m := by
  cases l with
  | nil => exact absurd rfl h
  | cons x xs => exact ⟨_, rfl⟩

theorem pyMax_isSome {l : List PTimestamp} (h : l ≠ []) : ∃ m, pyMax l = some m := by
  cases l with
  | nil => exact absurd rfl h
  | cons x xs => exact ⟨_, rfl⟩

theorem pyMin_tsSort (l : List PTimestamp) (haw : ∀ t ∈ l, t.aware = true) :
    pyMin (tsSort l) = pyMin l := by
  cases hl : l with
  | nil => simp [tsSort, pyMin]
  | cons x xs =>
    have hne : l ≠ [] := by simp [hl]
    obtain ⟨m1, hm1⟩ := pyMin_isSome (tsSort_ne_nil hne)
    obtain ⟨m2, hm2⟩ := pyMin_isSome hne
    rw [← hl, hm1, hm2]
    obtain ⟨hmem1, hmin1⟩ := pyMin_spec hm1
    obtain ⟨hmem2, hmin2⟩ := pyMin_spec hm2
    have hmem1l : m1 ∈ l := (tsSort_mem l m1).1 hmem1
    have hmem2s : m2 ∈ tsSort l := (tsSort_mem l m2).2 hmem2
    have le1 : m1.minutes ≤ m2.minutes := hmin1 m2 hmem2s
    have le2 : m2.minutes ≤ m1.minutes := hmin2 m1 hmem1l
    have ha : m1.aware = m2.aware := by rw [haw m1 hmem1l, haw m2 hmem2]
    exact congrArg some (PTimestamp.ext_minutes (le_antisymm le1 le2) ha)

theorem pyMax_tsSort (l : List PTimestamp) (haw : ∀ t ∈ l, t.aware = true) :
    pyMax (tsSort l) = pyMax l := by
  cases hl : l with
  | nil => simp [tsSort, pyMax]
  | cons x xs =>
    have hne : l ≠ [] := by simp [hl]
    obtain ⟨m1, hm1⟩ := pyMax_isSome (tsSort_ne_nil hne)
    obtain ⟨m2, hm2⟩ := pyMax_isSome hne
    rw [← hl, hm1, hm2]
    obtain ⟨hmem1, hmax1⟩ := pyMax_spec hm1
    obtain ⟨hmem2, hmax2⟩ := pyMax_spec hm2
    have hmem1l : m1 ∈ l := (tsSort_mem l m1).1 hmem1
    have hmem2s : m2 ∈ tsSort l := (tsSort_mem l m2).2 hmem2
    have le1 : m2.minutes ≤ m1.minutes := hmax1 m2 hmem2s
    have le2 : m1.minutes ≤ m2.minutes := hmax2 m1 hmem1l
    have ha : m1.aware = m2.aware := by rw [haw m1 hmem1l, haw m2 hmem2]
    exact congrArg some (PTimestamp.ext_minutes (le_antisymm le2 le1) ha)

/-! ### Shape lemmas for the query functions -/

theorem git_ok (table : List OpeningRecord) (s e : PTimestamp) (h rec : Int)
    (hs : s.aware = true) (he : e.aware = true) :
    get_invalid_times table s e h rec =
      .ok (((table.filter (fun r => r.hive_nb == h)).filter
        (fun r => overlapCond r s e rec)).map (fun r => clipRow r s e rec)) := by
  simp [get_invalid_times, hs, he]

theorem filter_timestamps_ok_form (table : List OpeningRecord) (ts : List PTimestamp)
    (h rec : Int) (haw : ∀ t ∈ ts, t.aware = true) (hne : ts ≠ []) :
    ∃ mn mx ivs,
      pyMin ts = some mn ∧ pyMax ts = some mx ∧
      get_invalid_times table mn mx h rec = .ok ivs ∧
      filter_timestamps table ts h rec =
        .ok ((tsSort ts).filter
          (fun t => !(ivs.any (fun iv => tsLe iv.istart t && tsLe t iv.iend)))) := by
  obtain ⟨mn, hmn⟩ := pyMin_isSome hne
  obtain ⟨mx, hmx⟩ := pyMax_isSome hne
  have hmn_aw : mn.aware = true := haw mn (pyMin_spec hmn).1
  have hmx_aw : mx.aware = true := haw mx (pyMax_spec hmx).1
  have hmns : pyMin (tsSort ts) = some mn := by rw [pyMin_tsSort ts haw, hmn]
  have hmxs : pyMax (tsSort ts) = some mx := by rw [pyMax_tsSort ts haw, hmx]
  have hany : ts.any (fun t => !t.aware) = false := by
    rw [List.any_eq_false]
    intro t ht
    simp [haw t ht]
  refine ⟨mn, mx, _, hmn, hmx, git_ok table mn mx h rec hmn_aw hmx_aw, ?_⟩
  simp only [filter_timestamps, hany, Bool.false_eq_true, if_false, hmns, hmxs,
    git_ok table mn mx h rec hmn_aw hmx_aw]

/-! ### Inversion lemmas for the loader -/

theorem mapME_ok_mem {α β : Type} {f : α → Except String β} {l : List α} {ys : List β}
    (h : mapME f l = .ok ys) {y : β} (hy : y ∈ ys) : ∃ x ∈ l, f x = .ok y := by
  induction l generalizing ys with
  | nil =>
    simp only [mapME, Except.ok.injEq] at h
    subst h
    simp at hy
  | cons a as ih =>
    simp only [mapME] at h
    split at h
    · exact absurd h (by simp)
    · next b hfa =>
      split at h
      · exact absurd h (by simp)
      · next bs hrest =>
        simp only [Except.ok.injEq] at h
        subst h
        rcases List.mem_cons.1 hy with rfl | hy2
        · exact ⟨a, by simp, hfa⟩
        · obtain ⟨x, hx, hfx⟩ := ih hrest hy2
          exact ⟨x, by simp [hx], hfx⟩

theorem build_ok_mem {lines : List String} {table : List OpeningRecord}
    (h : build_openings_df lines = .ok table) {r : OpeningRecord} (hr : r ∈ table) :
    ∃ row ∈ lines.filterMap parseFields, ∃ recs, buildRow row = .ok recs ∧ r ∈ recs := by
  simp only [build_openings_df] at h
  split at h
  · exact absurd h (by simp)
  · split at h
    · exact absurd h (by simp)
    · next recss heq =>
      simp only [Except.ok.injEq] at h
      subst h
      obtain ⟨rs, hrs, hrrs⟩ := List.mem_flatten.1 hr
      obtain ⟨row, hrow, hfr⟩ := mapME_ok_mem heq hrs
      exact ⟨row, hrow, rs, hfr, hrrs⟩

theorem parseTime_bounds {s : List Char} {h m : Nat}
    (hp : parseTime s = some (h, m)) : h ≤ 23 ∧ m ≤ 59 := by
  unfold parseTime at hp
  split at hp
  · exact absurd hp (by simp)
  · split at hp
    · exact absurd hp (by simp)
    · split at hp
      · exact absurd hp (by simp)
      · split at hp
        · next hcond =>
          simp only [Option.some.injEq, Prod.mk.injEq] at hp
          obtain ⟨rfl, rfl⟩ := hp
          exact ⟨hcond.2.1, hcond.2.2⟩
        · exact absurd hp (by simp)

theorem buildRow_ok_inv {row : Row} {recs : List OpeningRecord}
    (hb : buildRow row = .ok recs) :
    ∃ d m y h0 mi0 h1 mi1 ds,
      parseDate row.date = some (d, m, y) ∧
      (∃ t0 t1 rest, pySplitAll '-' row.time = t0 :: t1 :: rest ∧
        parseTime t0 = some (h0, mi0) ∧ parseTime t1 = some (h1, mi1)) ∧
      extractHiveDigits row.hives = some ds ∧
      recs = ds.map (fun c =>
        { start_opening := cetTime y m d h0 mi0
          end_opening := cetTime y m d h1 mi1
          hive_nb := ((c.toNat - 48 : Nat) : Int)
          comment := row.comment.map (fun l => String.mk l) }) := by
  unfold buildRow at hb
  split at hb
  · exact absurd hb (by simp)
  · next d m y hdate =>
    split at hb
    · next t0 t1 rest htime =>
      split at hb
      · next h0 mi0 h1 mi1 ht0 ht1 =>
        split at hb
        · next ds hds =>
          simp only [Except.ok.injEq] at hb
          exact ⟨d, m, y, h0, mi0, h1, mi1, ds, hdate,
            ⟨t0, t1, rest, htime, ht0, ht1⟩, hds, hb.symm⟩
        · exact absurd hb (by simp)
      · exact absurd hb (by simp)
    · exact absurd hb (by simp)

theorem buildRowFull_ok_inv {row : Row} {recs : List NOpening}
    (hb : buildRowFull row = .ok recs) :
    ∃ d m y h0 mi0 ds,
      parseDate row.date = some (d, m, y) ∧
      extractHiveDigits row.hives = some ds ∧
      ((∃ t0, pySplitAll '-' row.time = [t0] ∧ parseTime t0 = some (h0, mi0) ∧
        recs = ds.map (fun c =>
          { start_opening := cetTime y m d h0 mi0, end_opening := none,
            hive_nb := ((c.toNat - 48 : Nat) : Int),
            comment := row.comment.map (fun l => String.mk l) })) ∨
       (∃ t0 t1 rest h1 mi1, pySplitAll '-' row.time = t0 :: t1 :: rest ∧
        parseTime t0 = some (h0, mi0) ∧ parseTime t1 = some (h1, mi1) ∧
        recs = ds.map (fun c =>
          { start_opening := cetTime y m d h0 mi0,
            end_opening := some (cetTime y m d h1 mi1),
            hive_nb := ((c.toNat - 48 : Nat) : Int),
            comment := row.comment.map (fun l => String.mk l) }))) := by
  unfold buildRowFull at hb
  split at hb
  · exact absurd hb (by simp)
  · next d m y hdate =>
    split at hb
    · exact absurd hb (by simp)
    · next t0 rest hsplit =>
      split at hb
      · exact absurd hb (by simp)
      · next h0 mi0 ht0 =>
        split at hb
        · split at hb
          · next ds hds =>
            simp only [Except.ok.injEq] at hb
            exact ⟨d, m, y, h0, mi0, ds, hdate, hds,
              Or.inl ⟨t0, by simpa using hsplit, ht0, hb.symm⟩⟩
          · exact absurd hb (by simp)
        · next t1 tail hrest =>
          split at hb
          · exact absurd hb (by simp)
          · next h1 mi1 ht1 =>
            split at hb
            · next ds hds =>
              simp only [Except.ok.injEq] at hb
              exact ⟨d, m, y, h0, mi0, ds, hdate, hds,
                Or.inr ⟨t0, tail, hrest, h1, mi1, hsplit, ht0, ht1, hb.symm⟩⟩
            · exact absurd hb (by simp)

theorem buildFull_ok_mem {lines : List String} {table : List NOpening}
    (h : build_openings_full lines = .ok table) {r : NOpening} (hr : r ∈ table) :
    ∃ row ∈ lines.filterMap parseFields, ∃ recs, buildRowFull row = .ok recs ∧ r ∈ recs := by
  simp only [build_openings_full] at h
  split at h
  · exact absurd h (by simp)
  · split at h
    · exact absurd h (by simp)
    · next recss heq =>
      simp only [Except.ok.injEq] at h
      subst h
      obtain ⟨rs, hrs, hrrs⟩ := List.mem_flatten.1 hr
      obtain ⟨row, hrow, hfr⟩ := mapME_ok_mem heq hrs
      exact ⟨row, hrow, rs, hfr, hrrs⟩

theorem buildRow_agrees_full {row : Row} {recs : List OpeningRecord}
    (hb : buildRow row = .ok recs) :
    buildRowFull row = .ok (recs.map openingToN) := by
  obtain ⟨d, m, y, h0, mi0, h1, mi1, ds, hdate,
    ⟨t0, t1, rest, hsplit, ht0, ht1⟩, hhives, hrecseq⟩ := buildRow_ok_inv hb
  subst hrecseq
  simp only [buildRowFull, hdate, hsplit, ht0, ht1, hhives, List.map_map]
  rfl

theorem mapME_agrees_full {l : List Row} {recss : List (List OpeningRecord)}
    (h : mapME buildRow l = .ok recss) :
    mapME buildRowFull l = .ok (recss.map (fun rs => rs.map openingToN)) := by
  induction l generalizing recss with
  | nil =>
    simp only [mapME, Except.ok.injEq] at h
    subst h
    simp [mapME]
  | cons a as ih =>
    simp only [mapME] at h
    split at h
    · exact absurd h (by simp)
    · next b hfa =>
      split at h
      · exact absurd h (by simp)
      · next bs hrest =>
        simp only [Except.ok.injEq] at h
        subst h
        simp only [mapME, buildRow_agrees_full hfa, ih hrest, List.map_cons]

theorem build_agrees_full {lines : List String} {table : List OpeningRecord}
    (hok : build_openings_df lines = .ok table) :
    build_openings_full lines = .ok (table.map openingToN) := by
  simp only [build_openings_df] at hok
  split at hok
  · exact absurd hok (by simp)
  · next hemp =>
    split at hok
    · exact absurd hok (by simp)
    · next recss heq =>
      simp only [Except.ok.injEq] at hok
      subst hok
      simp only [build_openings_full, if_neg hemp, mapME_agrees_full heq,
        List.map_flatten]

/-! ### Pointwise lemmas relating code-side and spec-side definitions -/

theorem tsMaxPy_minutes (a b : PTimestamp) :
    (tsMaxPy a b).minutes = max a.minutes b.minutes := by
  unfold tsMaxPy
  by_cases hlt : tsLt a b = true
  · have := (tsLt_iff a b).1 hlt
    rw [if_pos hlt]
    omega
  · have h2 : ¬ a.minutes < b.minutes := fun hc => hlt ((tsLt_iff a b).2 hc)
    rw [if_neg hlt]
    omega

theorem tsMinPy_minutes (a b : PTimestamp) :
    (tsMinPy a b).minutes = min a.minutes b.minutes := by
  unfold tsMinPy
  by_cases hlt : tsLt b a = true
  · have := (tsLt_iff b a).1 hlt
    rw [if_pos hlt]
    omega
  · have h2 : ¬ b.minutes < a.minutes := fun hc => hlt ((tsLt_iff b a).2 hc)
    rw [if_neg hlt]
    omega

theorem tsMaxPy_aware {a b : PTimestamp} (ha : a.aware = true) (hb : b.aware = true) :
    (tsMaxPy a b).aware = true := by
  unfold tsMaxPy
  split <;> assumption

theorem tsMinPy_aware {a b : PTimestamp} (ha : a.aware = true) (hb : b.aware = true) :
    (tsMinPy a b).aware = true := by
  unfold tsMinPy
  split <;> assumption

theorem overlapCond_eq_amended (r : OpeningRecord) (s e : PTimestamp) (rec : Int) :
    overlapCond r s e rec = amendedOverlap r s e rec := by
  rw [Bool.eq_iff_iff]
  simp only [overlapCond, amendedOverlap, tsLt, tsLe, tsGt, tsGe, tsAdd,
    Bool.or_eq_true, Bool.and_eq_true, decide_eq_true_eq]
  constructor <;> (intro hc; tauto)

theorem clipRow_eq_specClip (r : OpeningRecord) (s e : PTimestamp) (rec : Int)
    (h1 : r.start_opening.aware = true) (h2 : r.end_opening.aware = true)
    (hs : s.aware = true) (he : e.aware = true) :
    clipRow r s e rec = specClip r s e rec := by
  have e1 : tsMaxPy r.start_opening s = ⟨max r.start_opening.minutes s.minutes, true⟩ :=
    PTimestamp.ext_minutes (tsMaxPy_minutes _ _) (tsMaxPy_aware h1 hs)
  have e2 : tsMinPy (tsAdd r.end_opening rec) e =
      ⟨min (r.end_opening.minutes + rec) e.minutes, true⟩ :=
    PTimestamp.ext_minutes (by rw [tsMinPy_minutes]; simp [tsAdd])
      (tsMinPy_aware (by simp [tsAdd, h2]) he)
  simp only [clipRow, specClip, e1, e2]

/-! ### Claim theorems -/

/-- C1, counterexample: the record loaded from `01/01/24 10:00-10:00 h1`
matches hive 1 and satisfies none of the three overlap conditions as the
claim states them (with `recovery_minutes = 0`, query window 09:00-10:00),
yet `get_invalid_times` returns an interval for it, because the code's second
condition is inclusive on the right (`end_opening+recovery <= end_ts`). -/
theorem c1_counterexample :
    build_openings_df ["01/01/24 10:00-10:00 h1"] =
      .ok [⟨cetTime 2024 1 1 10 0, cetTime 2024 1 1 10 0, 1, none⟩] ∧
    get_invalid_times [⟨cetTime 2024 1 1 10 0, cetTime 2024 1 1 10 0, 1, none⟩]
      (cetTime 2024 1 1 9 0) (cetTime 2024 1 1 10 0) 1 0 =
      .ok [⟨cetTime 2024 1 1 10 0, cetTime 2024 1 1 10 0⟩] ∧
    ¬ specOverlap ⟨cetTime 2024 1 1 10 0, cetTime 2024 1 1 10 0, 1, none⟩
      (cetTime 2024 1 1 9 0) (cetTime 2024 1 1 10 0) 0 :=
  ⟨rfl, rfl, by unfold specOverlap; decide⟩

/-- C1 as amended: for every timezone-aware `start_ts` and `end_ts`, every
`hive_nb` and every `recovery_minutes`, `get_invalid_times` returns an
interval for exactly those records whose `hive_nb` matches and that satisfy
condition 1 (`start_ts <= start_opening < end_ts`), or the amended condition
2 (`start_ts < end_opening+recovery <= end_ts`, inclusive right), or
condition 3 (`start_opening <= start_ts` and `end_opening+recovery >=
end_ts`); no other record contributes. -/
theorem c1_amended (table : List OpeningRecord) (s e : PTimestamp) (h rec : Int)
    (hs : s.aware = true) (he : e.aware = true) :
    get_invalid_times table s e h rec =
      .ok ((table.filter (fun r => r.hive_nb == h && amendedOverlap r s e rec)).map
        (fun r => clipRow r s e rec)) := by
  rw [git_ok table s e h rec hs he, List.filter_filter]
  have hpt : ∀ r ∈ table,
      (overlapCond r s e rec && (r.hive_nb == h)) =
        ((r.hive_nb == h) && amendedOverlap r s e rec) := by
    intro r _
    rw [overlapCond_eq_amended, Bool.and_comm]
  rw [List.filter_congr hpt]

/-- C1 witness: the amended statement evaluated at a concrete aware query. -/
theorem c1_amended_witness :
    get_invalid_times [⟨⟨0, true⟩, ⟨10, true⟩, 1, none⟩] ⟨5, true⟩ ⟨20, true⟩ 1 60 =
      .ok (([⟨⟨0, true⟩, ⟨10, true⟩, 1, none⟩].filter
        (fun r => r.hive_nb == 1 && amendedOverlap r ⟨5, true⟩ ⟨20, true⟩ 60)).map
        (fun r => clipRow r ⟨5, true⟩ ⟨20, true⟩ 60)) :=
  c1_amended [⟨⟨0, true⟩, ⟨10, true⟩, 1, none⟩] ⟨5, true⟩ ⟨20, true⟩ 1 60 rfl rfl

/-- C4: for each contributing record `get_invalid_times` emits exactly one
interval, clipped to the query window as `start = max(start_opening,
start_ts)` and `end = min(end_opening+recovery, end_ts)`; the output is a
one-to-one map over the contributing records (a sublist of the table, all
with the queried hive), so no merging of overlapping intervals happens and a
timestamp covered by two overlapping openings appears in two intervals. -/
theorem c4_theorem (table : List OpeningRecord) (s e : PTimestamp) (h rec : Int)
    (ivs : List PInterval) (hs : s.aware = true) (he : e.aware = true)
    (haw : ∀ r ∈ table, r.start_opening.aware = true ∧ r.end_opening.aware = true)
    (hok : get_invalid_times table s e h rec = .ok ivs) :
    ∃ contrib : List OpeningRecord, contrib.Sublist table ∧
      (∀ r ∈ contrib, r.hive_nb = h) ∧
      ivs = contrib.map (fun r => specClip r s e rec) := by
  rw [git_ok table s e h rec hs he] at hok
  simp only [Except.ok.injEq] at hok
  subst hok
  refine ⟨(table.filter (fun r => r.hive_nb == h)).filter
    (fun r => overlapCond r s e rec), ?_, ?_, ?_⟩
  · exact (List.filter_sublist _).trans (List.filter_sublist _)
  · intro r hr
    have h1 := List.mem_of_mem_filter hr
    have h2 := (List.mem_filter.1 h1).2
    exact eq_of_beq h2
  · apply List.map_congr_left
    intro r hr
    have h1 : r ∈ table := List.mem_of_mem_filter (List.mem_of_mem_filter hr)
    exact clipRow_eq_specClip r s e rec (haw r h1).1 (haw r h1).2 hs he

/-- C4 witness: the concrete query on a one-record table. -/
theorem c4_witness :
    ∃ contrib : List OpeningRecord,
      contrib.Sublist [⟨⟨0, true⟩, ⟨10, true⟩, 1, none⟩] ∧
      (∀ r ∈ contrib, r.hive_nb = 1) ∧
      [PInterval.mk ⟨5, true⟩ ⟨20, true⟩] =
        contrib.map (fun r => specClip r ⟨5, true⟩ ⟨20, true⟩ 60) :=
  c4_theorem [⟨⟨0, true⟩, ⟨10, true⟩, 1, none⟩] ⟨5, true⟩ ⟨20, true⟩ 1 60
    [PInterval.mk ⟨5, true⟩ ⟨20, true⟩] rfl rfl (by decide) rfl

/-- C10: for every timezone-aware `start_ts <= end_ts`, every
`recovery_time >= 0` and every table whose records satisfy
`end_opening >= start_opening`, every interval returned by
`get_invalid_times` is well-formed: `start <= end`. -/
theorem c10_theorem (table : List OpeningRecord) (s e : PTimestamp) (h rec : Int)
    (ivs : List PInterval)
    (hinv : ∀ r ∈ table, tsLe r.start_opening r.end_opening = true)
    (hse : tsLe s e = true) (hrec : 0 ≤ rec)
    (hs : s.aware = true) (he : e.aware = true)
    (hok : get_invalid_times table s e h rec = .ok ivs) :
    ∀ iv ∈ ivs, tsLe iv.istart iv.iend = true := by
  rw [git_ok table s e h rec hs he] at hok
  simp only [Except.ok.injEq] at hok
  subst hok
  intro iv hiv
  obtain ⟨r, hrmem, rfl⟩ := List.mem_map.1 hiv
  have hr_table : r ∈ table :=
    List.mem_of_mem_filter (List.mem_of_mem_filter hrmem)
  have hcond : overlapCond r s e rec = true := (List.mem_filter.1 hrmem).2
  have hre := (tsLe_iff _ _).1 (hinv r hr_table)
  have hse' := (tsLe_iff _ _).1 hse
  simp only [overlapCond, tsLt, tsLe, tsGt, tsGe, tsAdd, Bool.or_eq_true,
    Bool.and_eq_true, decide_eq_true_eq] at hcond
  rw [tsLe_iff]
  simp only [clipRow, tsMaxPy_minutes, tsMinPy_minutes, tsAdd]
  omega

/-- C10 witness: a concrete record and query satisfying the hypotheses. -/
theorem c10_witness :
    tsLe (PInterval.mk ⟨5, true⟩ ⟨20, true⟩).istart
      (PInterval.mk ⟨5, true⟩ ⟨20, true⟩).iend = true :=
  c10_theorem [⟨⟨0, true⟩, ⟨10, true⟩, 1, none⟩] ⟨5, true⟩ ⟨20, true⟩ 1 60
    [PInterval.mk ⟨5, true⟩ ⟨20, true⟩] (by decide) rfl (by omega) rfl rfl rfl
    (PInterval.mk ⟨5, true⟩ ⟨20, true⟩) (by simp)

/-- C2, counterexamples: the midnight-crossing line `01/02/24 23:00-01:00 h1`
loads successfully with `end_opening < start_opening` (both timestamps are
built from the same calendar date and nothing checks the order), and the
dash-less line `01/02/24 10:00 h1` loads successfully with `end_opening =
NaT`, for which `end_opening >= start_opening` is false (every pandas
comparison with `NaT` is false); either record refutes the claimed
invariant. -/
theorem c2_counterexample :
    build_openings_full ["01/02/24 23:00-01:00 h1"] =
      .ok [⟨cetTime 2024 2 1 23 0, some (cetTime 2024 2 1 1 0), 1, none⟩] ∧
    natGe (some (cetTime 2024 2 1 1 0)) (cetTime 2024 2 1 23 0) = false ∧
    build_openings_full ["01/02/24 10:00 h1"] =
      .ok [⟨cetTime 2024 2 1 10 0, none, 1, none⟩] ∧
    natGe none (cetTime 2024 2 1 10 0) = false :=
  ⟨rfl, rfl, rfl, rfl⟩

/-- C2 as amended: `end_opening >= start_opening` holds for every loaded
record whose end timestamp is an actual time (not `NaT`, i.e. the line's
time field had a second half) and whose end time-of-day is not earlier than
its start time-of-day.  Time-of-day is the minute count modulo 1440: every
timestamp built by the loader is `day * 1440 + time-of-day` by construction. -/
theorem c2_amended (lines : List String) (table : List NOpening)
    (hok : build_openings_full lines = .ok table) :
    ∀ r ∈ table, ∀ e, r.end_opening = some e →
      r.start_opening.minutes % 1440 ≤ e.minutes % 1440 →
      natGe r.end_opening r.start_opening = true := by
  intro r hr e hend htod
  obtain ⟨row, hrow, recs, hbr, hrrecs⟩ := buildFull_ok_mem hok hr
  obtain ⟨d, m, y, h0, mi0, ds, hdate, hhives, hcase⟩ := buildRowFull_ok_inv hbr
  rcases hcase with ⟨t0, hsplit, ht0, hrecseq⟩ | ⟨t0, t1, rest, h1, mi1, hsplit, ht0, ht1, hrecseq⟩
  · subst hrecseq
    obtain ⟨c, hc, rfl⟩ := List.mem_map.1 hrrecs
    simp at hend
  · subst hrecseq
    obtain ⟨c, hc, rfl⟩ := List.mem_map.1 hrrecs
    obtain ⟨hh0, hmi0⟩ := parseTime_bounds ht0
    obtain ⟨hh1, hmi1⟩ := parseTime_bounds ht1
    simp only [Option.some.injEq] at hend
    subst hend
    simp only [natGe, tsGe, ge_iff_le, decide_eq_true_eq, cetTime] at htod ⊢
    omega

/-- C2 witness: the amended statement on a normal one-line log whose end
time-of-day 11:00 is after its start time-of-day 10:00. -/
theorem c2_amended_witness :
    natGe (some (cetTime 2024 2 1 11 0)) (cetTime 2024 2 1 10 0) = true :=
  c2_amended ["01/02/24 10:00-11:00 h1"]
    [⟨cetTime 2024 2 1 10 0, some (cetTime 2024 2 1 11 0), 1, none⟩] rfl
    ⟨cetTime 2024 2 1 10 0, some (cetTime 2024 2 1 11 0), 1, none⟩ (by simp)
    (cetTime 2024 2 1 11 0) rfl (by decide)

/-- C6: the log line `01/02/24 10:00-11:00 h12 inspection` loads into exactly
two records, hive 1 and hive 2, both with start 2024-02-01T10:00 and end
2024-02-01T11:00 in the fixed zone and comment `inspection`; and in general
every successfully parsed row yields one record per extracted hive digit,
all records sharing the row's start, end and comment. -/
theorem c6_theorem :
    build_openings_df ["01/02/24 10:00-11:00 h12 inspection"] = .ok
      [⟨cetTime 2024 2 1 10 0, cetTime 2024 2 1 11 0, 1, some "inspection"⟩,
       ⟨cetTime 2024 2 1 10 0, cetTime 2024 2 1 11 0, 2, some "inspection"⟩] ∧
    ∀ row recs, buildRow row = .ok recs →
      ∃ ds st et, extractHiveDigits row.hives = some ds ∧
        recs = ds.map (fun c =>
          { start_opening := st, end_opening := et,
            hive_nb := ((c.toNat - 48 : Nat) : Int),
            comment := row.comment.map (fun l => String.mk l) : OpeningRecord }) := by
  refine ⟨rfl, ?_⟩
  intro row recs hb
  obtain ⟨d, m, y, h0, mi0, h1, mi1, ds, _, _, hhives, hrecseq⟩ := buildRow_ok_inv hb
  exact ⟨ds, cetTime y m d h0 mi0, cetTime y m d h1 mi1, hhives, hrecseq⟩

/-- C6 witness: the per-digit expansion applied to a concrete parsed row. -/
theorem c6_witness :
    ∃ ds st et,
      extractHiveDigits (Row.mk "01/02/24".data "10:00-11:00".data "h12".data none).hives =
        some ds ∧
      [(⟨cetTime 2024 2 1 10 0, cetTime 2024 2 1 11 0, 1, none⟩ : OpeningRecord),
       ⟨cetTime 2024 2 1 10 0, cetTime 2024 2 1 11 0, 2, none⟩] =
        ds.map (fun c =>
          { start_opening := st, end_opening := et,
            hive_nb := ((c.toNat - 48 : Nat) : Int),
            comment := (Row.mk "01/02/24".data "10:00-11:00".data "h12".data none).comment.map
              (fun l => String.mk l) : OpeningRecord }) :=
  c6_theorem.2 (Row.mk "01/02/24".data "10:00-11:00".data "h12".data none)
    [⟨cetTime 2024 2 1 10 0, cetTime 2024 2 1 11 0, 1, none⟩,
     ⟨cetTime 2024 2 1 10 0, cetTime 2024 2 1 11 0, 2, none⟩] rfl

/-- C7: a line that is empty after stripping, or starts with `#`, or splits
into neither 3 nor 4 fields, contributes no record and raises no error:
inserting such a line anywhere in the log leaves the result of
`build_openings_df` (value or error) unchanged. -/
theorem c7_theorem (line : String) (pre post : List String) (hskip : skippedLine line) :
    build_openings_df (pre ++ line :: post) = build_openings_df (pre ++ post) := by
  have hnone : parseFields line = none := by
    unfold parseFields
    rcases hskip with h1 | h1 | h1
    · simp [h1]
    · by_cases hb : pyStrip line.data = []
      · simp [hb]
      · simp [hb, h1]
    · by_cases hb : pyStrip line.data = []
      · simp [hb]
      · by_cases hsw : pyStartsWith '#' line.data = true
        · simp [hb, hsw]
        · rw [if_neg hb, if_neg hsw]
          obtain ⟨h3, h4⟩ := h1
          rcases hsp : pySplitMax ' ' (pyStrip line.data) 3 with
            _ | ⟨a, _ | ⟨b, _ | ⟨c, _ | ⟨d, _ | ⟨e, tail⟩⟩⟩⟩⟩
          · rfl
          · rfl
          · rfl
          · rw [hsp] at h3
            simp at h3
          · rw [hsp] at h4
            simp at h4
          · rfl
  simp only [build_openings_df, List.filterMap_append, List.filterMap_cons, hnone]

/-- C7 witness: inserting a 2-field junk line after a good line changes
nothing. -/
theorem c7_witness :
    build_openings_df ["01/02/24 10:00-11:00 h1", "foo bar"] =
      build_openings_df ["01/02/24 10:00-11:00 h1"] :=
  c7_theorem "foo bar" ["01/02/24 10:00-11:00 h1"] []
    (by unfold skippedLine; decide)

/-- C3, counterexample: `filter_timestamps` on the empty list fails (Python's
`min([])` raises a `ValueError`) even though every supplied timestamp is
(vacuously) timezone-aware, so the query functions are not total over all
well-formed timezone-aware inputs. -/
theorem c3_counterexample :
    filter_timestamps [] [] 1 60 = .error "min() arg is an empty sequence" ∧
    ∀ t ∈ ([] : List PTimestamp), t.aware = true :=
  ⟨rfl, by simp⟩

/-- C3 as amended: `get_invalid_times` succeeds iff both query timestamps are
timezone-aware, `filter_timestamps` succeeds iff every timestamp is
timezone-aware and the list is non-empty (the empty list makes `min` fail),
and `valid_ts` succeeds iff its single timestamp is timezone-aware; no other
input makes a query function fail, and a naive timestamp always does. -/
theorem c3_amended (table : List OpeningRecord) (s e : PTimestamp) (h rec : Int)
    (ts : List PTimestamp) (t : PTimestamp) :
    ((∃ v, get_invalid_times table s e h rec = .ok v) ↔
      (s.aware = true ∧ e.aware = true)) ∧
    ((∃ v, filter_timestamps table ts h rec = .ok v) ↔
      ((∀ x ∈ ts, x.aware = true) ∧ ts ≠ [])) ∧
    ((∃ v, valid_ts table t h rec = .ok v) ↔ t.aware = true) := by
  have p2 : ∀ ts' : List PTimestamp,
      (∃ v, filter_timestamps table ts' h rec = .ok v) ↔
        ((∀ x ∈ ts', x.aware = true) ∧ ts' ≠ []) := by
    intro ts'
    constructor
    · rintro ⟨v, hv⟩
      unfold filter_timestamps at hv
      by_cases hany : ts'.any (fun x => !x.aware) = true
      · rw [if_pos hany] at hv
        exact absurd hv (by simp)
      · have hany' : ts'.any (fun x => !x.aware) = false := Bool.eq_false_iff.2 hany
        have haw : ∀ x ∈ ts', x.aware = true := by
          intro x hx
          have h2 := List.any_eq_false.1 hany' x hx
          simpa using h2
        refine ⟨haw, ?_⟩
        rintro rfl
        rw [if_neg hany] at hv
        simp [tsSort, pyMin, pyMax] at hv
    · rintro ⟨haw, hne⟩
      obtain ⟨mn, mx, ivs, hq1, hq2, hq3, hform⟩ :=
        filter_timestamps_ok_form table ts' h rec haw hne
      exact ⟨_, hform⟩
  refine ⟨?_, p2 ts, ?_⟩
  · constructor
    · rintro ⟨v, hv⟩
      unfold get_invalid_times at hv
      by_cases hs : s.aware = false
      · rw [if_pos hs] at hv
        exact absurd hv (by simp)
      · rw [if_neg hs] at hv
        by_cases he : e.aware = false
        · rw [if_pos he] at hv
          exact absurd hv (by simp)
        · exact ⟨Bool.ne_false_iff.1 hs, Bool.ne_false_iff.1 he⟩
    · rintro ⟨hs, he⟩
      exact ⟨_, git_ok table s e h rec hs he⟩
  · constructor
    · rintro ⟨v, hv⟩
      unfold valid_ts at hv
      split at hv
      · exact absurd hv (by simp)
      · next l hl =>
        have h2 := (p2 [t]).1 ⟨l, hl⟩
        exact h2.1 t (by simp)
    · intro ht
      have h2 : ∀ x ∈ [t], x.aware = true := by
        intro x hx
        rw [List.mem_singleton] at hx
        subst hx
        exact ht
      obtain ⟨v, hv⟩ := (p2 [t]).2 ⟨h2, by simp⟩
      refine ⟨decide (v.length > 0), ?_⟩
      unfold valid_ts
      rw [hv]

/-- C5: a timestamp is kept by `filter_timestamps` iff it occurs in the input
and lies in none of the invalid intervals computed for the span
`[min(timestamps), max(timestamps)]`, where interval membership is closed on
both ends (`start <= t <= end`), so a timestamp equal to an interval's start
or end is excluded. -/
theorem c5_theorem (table : List OpeningRecord) (ts : List PTimestamp) (h rec : Int)
    (mn mx : PTimestamp) (ivs : List PInterval) (res : List PTimestamp)
    (haw : ∀ t ∈ ts, t.aware = true) (hne : ts ≠ [])
    (hmn : pyMin ts = some mn) (hmx : pyMax ts = some mx)
    (hiv : get_invalid_times table mn mx h rec = .ok ivs)
    (hres : filter_timestamps table ts h rec = .ok res) :
    ∀ t, t ∈ res ↔ (t ∈ ts ∧ ∀ iv ∈ ivs,
      ¬(tsLe iv.istart t = true ∧ tsLe t iv.iend = true)) := by
  obtain ⟨mn', mx', ivs', hmn', hmx', hiv', hform⟩ :=
    filter_timestamps_ok_form table ts h rec haw hne
  rw [hmn] at hmn'
  rw [hmx] at hmx'
  obtain rfl := Option.some.inj hmn'
  obtain rfl := Option.some.inj hmx'
  rw [hiv] at hiv'
  simp only [Except.ok.injEq] at hiv'
  subst hiv'
  rw [hform] at hres
  simp only [Except.ok.injEq] at hres
  subst hres
  intro t
  rw [List.mem_filter, tsSort_mem]
  constructor
  · rintro ⟨h1, h2⟩
    refine ⟨h1, ?_⟩
    intro iv hivmem hc
    have h4 : ivs.any (fun iv => tsLe iv.istart t && tsLe t iv.iend) = false := by
      rwa [Bool.not_eq_true'] at h2
    have h3 := List.any_eq_false.1 h4 iv hivmem
    exact h3 (by rw [Bool.and_eq_true]; exact hc)
  · rintro ⟨h1, h2⟩
    refine ⟨h1, ?_⟩
    have hfalse : ivs.any (fun iv => tsLe iv.istart t && tsLe t iv.iend) = false := by
      rw [List.any_eq_false]
      intro iv hivmem hc
      rw [Bool.and_eq_true] at hc
      exact h2 iv hivmem hc
    rw [Bool.not_eq_true']
    exact hfalse

/-- C5 witness: a concrete query where the interval's start boundary (minute
5) is excluded and minute 100 survives. -/
theorem c5_witness :
    (⟨5, true⟩ : PTimestamp) ∈ [(⟨100, true⟩ : PTimestamp)] ↔
      ((⟨5, true⟩ : PTimestamp) ∈ [(⟨100, true⟩ : PTimestamp), ⟨5, true⟩] ∧
        ∀ iv ∈ [PInterval.mk ⟨5, true⟩ ⟨70, true⟩],
          ¬(tsLe iv.istart ⟨5, true⟩ = true ∧ tsLe ⟨5, true⟩ iv.iend = true)) :=
  c5_theorem [⟨⟨0, true⟩, ⟨10, true⟩, 1, none⟩] [⟨100, true⟩, ⟨5, true⟩] 1 60
    ⟨5, true⟩ ⟨100, true⟩ [PInterval.mk ⟨5, true⟩ ⟨70, true⟩] [⟨100, true⟩]
    (by decide) (by decide) rfl rfl rfl rfl ⟨5, true⟩

/-- C8: for every non-empty list of timezone-aware timestamps, in any order,
`filter_timestamps` sorts the input before filtering: the sort is a
permutation of the input in ascending order, the result is a subsequence of
that sort, and the result itself is in ascending order. -/
theorem c8_theorem (table : List OpeningRecord) (ts : List PTimestamp) (h rec : Int)
    (res : List PTimestamp) (hne : ts ≠ []) (haw : ∀ t ∈ ts, t.aware = true)
    (hres : filter_timestamps table ts h rec = .ok res) :
    (tsSort ts).Perm ts ∧
    List.Pairwise (fun a b => a.minutes ≤ b.minutes) (tsSort ts) ∧
    res.Sublist (tsSort ts) ∧
    List.Pairwise (fun a b => a.minutes ≤ b.minutes) res := by
  obtain ⟨mn, mx, ivs, hq1, hq2, hq3, hform⟩ :=
    filter_timestamps_ok_form table ts h rec haw hne
  rw [hform] at hres
  simp only [Except.ok.injEq] at hres
  subst hres
  exact ⟨tsSort_perm ts, tsSort_sorted ts, List.filter_sublist _,
    (tsSort_sorted ts).sublist (List.filter_sublist _)⟩

/-- C8 witness: an unsorted two-element input produces an ascending result. -/
theorem c8_witness :
    (tsSort [(⟨100, true⟩ : PTimestamp), ⟨5, true⟩]).Perm
      [(⟨100, true⟩ : PTimestamp), ⟨5, true⟩] ∧
    List.Pairwise (fun a b => a.minutes ≤ b.minutes)
      (tsSort [(⟨100, true⟩ : PTimestamp), ⟨5, true⟩]) ∧
    [(⟨100, true⟩ : PTimestamp)].Sublist
      (tsSort [(⟨100, true⟩ : PTimestamp), ⟨5, true⟩]) ∧
    List.Pairwise (fun a b => a.minutes ≤ b.minutes) [(⟨100, true⟩ : PTimestamp)] :=
  c8_theorem [⟨⟨0, true⟩, ⟨10, true⟩, 1, none⟩] [⟨100, true⟩, ⟨5, true⟩] 1 60
    [⟨100, true⟩] (by decide) (by decide) rfl

/-- C9: records of a different hive never affect query results: inserting (or
removing) a record whose `hive_nb` is some other hive anywhere in the table
leaves both `get_invalid_times` and `filter_timestamps` for the queried hive
unchanged. -/
theorem c9_theorem (pre post : List OpeningRecord) (r : OpeningRecord)
    (hive other : Int) (s e : PTimestamp) (rec : Int) (ts : List PTimestamp)
    (hr : r.hive_nb = other) (hne : other ≠ hive) :
    get_invalid_times (pre ++ r :: post) s e hive rec =
      get_invalid_times (pre ++ post) s e hive rec ∧
    filter_timestamps (pre ++ r :: post) ts hive rec =
      filter_timestamps (pre ++ post) ts hive rec := by
  have hrne : (r.hive_nb == hive) = false := by
    subst hr
    simp [hne]
  have hfilt : (pre ++ r :: post).filter (fun x => x.hive_nb == hive) =
      (pre ++ post).filter (fun x => x.hive_nb == hive) := by
    simp [List.filter_append, List.filter_cons, hrne]
  have hgit : ∀ a b : PTimestamp,
      get_invalid_times (pre ++ r :: post) a b hive rec =
        get_invalid_times (pre ++ post) a b hive rec := by
    intro a b
    unfold get_invalid_times
    rw [hfilt]
  refine ⟨hgit s e, ?_⟩
  by_cases hany : ts.any (fun x => !x.aware) = true
  · simp [filter_timestamps, hany]
  · cases hpm : pyMin (tsSort ts) with
    | none => simp [filter_timestamps, hany, hpm]
    | some mn =>
      cases hpx : pyMax (tsSort ts) with
      | none => simp [filter_timestamps, hany, hpm, hpx]
      | some mx => simp [filter_timestamps, hany, hpm, hpx, hgit mn mx]

/-- C9 witness: a hive-2 record does not affect a hive-1 query. -/
theorem c9_witness :
    get_invalid_times [⟨⟨0, true⟩, ⟨10, true⟩, 2, none⟩] ⟨0, true⟩ ⟨1, true⟩ 1 60 =
      get_invalid_times [] ⟨0, true⟩ ⟨1, true⟩ 1 60 ∧
    filter_timestamps [⟨⟨0, true⟩, ⟨10, true⟩, 2, none⟩] [⟨0, true⟩] 1 60 =
      filter_timestamps [] [⟨0, true⟩] 1 60 :=
  c9_theorem [] [] ⟨⟨0, true⟩, ⟨10, true⟩, 2, none⟩ 1 2 ⟨0, true⟩ ⟨1, true⟩ 60
    [⟨0, true⟩] rfl (by decide)
